import Mathlib

/-!
Verification of the annotation session engine of
`Few_Shot/draw_boxes.py` and `Few_Shot/draw_boxes_.py`.

Modeling conventions, shared by every definition below:

* Pointer coordinates are modeled as integers (Tk event pixel positions),
  so Python's `int()` truncation is the identity on them and floats never
  enter the model.
* Python `dict`s are modeled as association lists in insertion order,
  matching CPython's ordered-dict semantics; `list.append` / `list.pop()`
  become `++ [x]` / `List.dropLast`.
* Purely presentational state (canvas widgets, photo images, drawn
  rectangle ids, status-bar text, dialogs) is outside the model except
  where an operation's control flow depends on it; dialog answers and
  file-write success are passed in as explicit booleans.
-/

/-- A bounding box `[x1, y1, x2, y2]` as stored in the annotation lists. -/
structure Bbox where
  x1 : Int
  y1 : Int
  x2 : Int
  y2 : Int
deriving DecidableEq

/-- First-match lookup in an insertion-ordered association list
(Python `d.get(key)`). -/
def lookupA {α : Type} : List (String × α) → String → Option α
  | [], _ => none
  | (k, v) :: rest, key => if k = key then some v else lookupA rest key

/-- Replace the value at the first occurrence of `key`.  This models
Python `d[key] = v` for a key that is already present; on an absent key it
is the identity, and every use below is guarded by a presence check. -/
def updateA {α : Type} : List (String × α) → String → α → List (String × α)
  | [], _, _ => []
  | (k, v) :: rest, key, val =>
    if k = key then (k, val) :: rest else (k, v) :: updateA rest key val

/-- Python `d[key] = v` in full: replace the first occurrence if present,
else insert at the end (dicts keep insertion order). -/
def dictSet {α : Type} : List (String × α) → String → α → List (String × α)
  | [], key, val => [(key, val)]
  | (k, v) :: rest, key, val =>
    if k = key then (k, val) :: rest else (k, v) :: dictSet rest key val

/-- Python `d.setdefault(key, []).append(b)` on a dict of box lists. -/
def setdefaultAppend (w : List (String × List Bbox)) (im : String) (b : Bbox) :
    List (String × List Bbox) :=
  match lookupA w im with
  | some l => updateA w im (l ++ [b])
  | none => w ++ [(im, [b])]

/-- `IMAGE_DISPLAY_SIZE = (500, 500)`: the fixed display surface. -/
def imageDisplaySize : Int × Int := (500, 500)

/-- Box computation of `_on_canvas_release` in `draw_boxes_.py`
(lines 363-367): canonicalize with min/max and reject iff either extent is
below 5.  This variant performs no clamping and a single undersize check. -/
def releaseUnderscore (sx sy ex ey : Int) : Option Bbox :=
  let b : Bbox := ⟨min sx ex, min sy ey, max sx ex, max sy ey⟩
  if b.x2 - b.x1 < 5 ∨ b.y2 - b.y1 < 5 then none else some b

/-- Clamp a coordinate into `[0, dim - 1]`
(`max(0, min(v, dim - 1))`, `draw_boxes.py` lines 451-454). -/
def clampCoord (v dim : Int) : Int := max 0 (min v (dim - 1))

/-- Box computation of `_on_canvas_release` in `draw_boxes.py`
(lines 441-460): canonicalize, reject if either extent is below 5, clamp
every coordinate into the display surface, then reject again if an extent
became below 5 after clamping. -/
def releaseClamped (sx sy ex ey : Int) : Option Bbox :=
  let x1 := min sx ex
  let y1 := min sy ey
  let x2 := max sx ex
  let y2 := max sy ey
  if (x1 - x2).natAbs < 5 ∨ (y1 - y2).natAbs < 5 then none
  else
    let cx1 := clampCoord x1 imageDisplaySize.1
    let cy1 := clampCoord y1 imageDisplaySize.2
    let cx2 := clampCoord x2 imageDisplaySize.1
    let cy2 := clampCoord y2 imageDisplaySize.2
    if (cx1 - cx2).natAbs < 5 ∨ (cy1 - cy2).natAbs < 5 then none
    else some ⟨cx1, cy1, cx2, cy2⟩

/-- Claim C3 as stated, read against the release handler of
`draw_boxes_.py`: every box it produces has each coordinate inside
`[0, dim - 1]` for the 500×500 display surface. -/
def C3Claim : Prop :=
  ∀ sx sy ex ey b, releaseUnderscore sx sy ex ey = some b →
    0 ≤ b.x1 ∧ b.x1 ≤ 499 ∧ 0 ≤ b.y1 ∧ b.y1 ≤ 499 ∧
    0 ≤ b.x2 ∧ b.x2 ≤ 499 ∧ 0 ≤ b.y2 ∧ b.y2 ≤ 499

/-- One group's record in the annotation store, the JSON object
`\x7b "type_of_annotation": ..., "annotations": ... \x7d`; the first key is
modeled by the field `typeOf`. -/
structure SubRecord where
  typeOf : String
  annotations : List (String × List Bbox)
deriving DecidableEq

/-- The filesystem as seen by the engine: for each subfolder name, the
name-sorted list of its image files (the result of the sorted `os.listdir`
filter in `_load_subfolder_by_index`). -/
abbrev Env := List (String × List String)

/-- The engine-relevant mutable state of `AnnotationApp` in
`draw_boxes_.py`.  UI-only fields (canvases, photo images, drawn rectangle
ids) are omitted; `undoStack` keeps only the image name of each
`(canvas, img_name)` pair, since the canvas component is used only to
delete the drawn rectangle; `progressData` models the list
`progress_data["completed_subfolders"]`. -/
structure AppState where
  subfolders : List String
  currentIndex : Int
  currentName : String
  annotationsData : List (String × SubRecord)
  progressData : List String
  working : List (String × List Bbox)
  undoStack : List String
  unsavedChanges : Bool
  annotationTypeVar : String
  annotationTypes : List String
deriving DecidableEq

/-- The combobox value list: `[t for t in self.annotation_types if t != 'other']`. -/
def displayTypes (types : List String) : List String :=
  types.filter (fun t => t ≠ "other")

/-- Lines 369-375 of `draw_boxes_.py`: append the accepted box to the
image's list, push the undo entry, mark the session dirty. -/
def addBoxStep (im : String) (b : Bbox) (st : AppState) : AppState :=
  { st with working := setdefaultAppend st.working im b,
            undoStack := st.undoStack ++ [im],
            unsavedChanges := true }

/-- `_on_canvas_release` of `draw_boxes_.py` (lines 356-376): `img?` is
the canvas drawing state's `image_name` (`none` when the canvas has no
image, in which case the handler returns early); the `active_rect_id`
guard is presentational and omitted. -/
def onCanvasRelease (img? : Option String) (sx sy ex ey : Int) (st : AppState) : AppState :=
  match img? with
  | none => st
  | some im =>
    match releaseUnderscore sx sy ex ey with
    | none => st
    | some b => addBoxStep im b st

/-- Number of boxes currently held for image `im`. -/
def countFor (st : AppState) (im : String) : Nat :=
  ((lookupA st.working im).getD []).length

/-- `_action_undo_last_bbox` (`draw_boxes_.py` lines 417-426): pop the
most recent global undo entry and drop the last box of that image's list;
no-op when the stack is empty.  Deleting the drawn rectangle id is
presentational. -/
def actionUndo (st : AppState) : AppState :=
  match st.undoStack.getLast? with
  | none => st
  | some im =>
    let st1 : AppState := { st with undoStack := st.undoStack.dropLast }
    match lookupA st1.working im with
    | some l =>
      if l = [] then { st1 with unsavedChanges := true }
      else { st1 with working := updateA st1.working im l.dropLast, unsavedChanges := true }
    | none => { st1 with unsavedChanges := true }

/-- Iterated undo: `undoN n` presses Ctrl+Z `n` times. -/
def undoN : Nat → AppState → AppState
  | 0, st => st
  | Nat.succ k, st => undoN k (actionUndo st)

/-- A sequence of accepted `addBox` calls, each naming the slot's image
and the validated box (the mutation path of `_on_canvas_release`,
lines 369-375, for boxes the release check accepted). -/
def applyAdds (adds : List (String × Bbox)) (st : AppState) : AppState :=
  adds.foldl (fun s p => addBoxStep p.1 p.2 s) st

/-- Set the dirty flag (`self.unsaved_changes = True`). -/
def withDirty (st : AppState) : AppState :=
  { st with unsavedChanges := true }

/-- `_clear_display_and_current_data` (lines 271-281), engine part:
clear the working annotations, the undo stack and the dirty flag. -/
def clearDisplayAndCurrentData (st : AppState) : AppState :=
  { st with working := [], undoStack := [], unsavedChanges := false }

/-- `_load_subfolder_by_index` (lines 283-331).  Out-of-range indices show
the boundary message box and change nothing (the returned flag is `true`
iff that message was shown).  In range: clear the current data, select the
target subfolder, restore its category (falling back to the first combo
value when the stored one is not offered), and rebuild the working map
from the stored record for the first four image files.  Image decoding is
assumed to succeed; decode failures only skip a slot's setup. -/
def loadSubfolderByIndex (env : Env) (st : AppState) (idx : Int) : AppState × Bool :=
  if 0 ≤ idx ∧ idx < (st.subfolders.length : Int) then
    let stc := clearDisplayAndCurrentData st
    let name := st.subfolders.getD idx.toNat ""
    let imageFiles := (lookupA env name).getD []
    let subData := lookupA st.annotationsData name
    let annType0 :=
      match subData with
      | some r => r.typeOf
      | none => st.annotationTypeVar
    let comboValues := displayTypes st.annotationTypes
    let annType := if annType0 ∈ comboValues then annType0 else comboValues.headD ""
    let anns := (subData.map (fun r => r.annotations)).getD []
    let working := (imageFiles.take 4).map (fun im => (im, (lookupA anns im).getD []))
    ({ stc with currentIndex := idx,
                currentName := name,
                annotationTypeVar := annType,
                working := working,
                unsavedChanges := false }, false)
  else (st, true)

/-- Result of `_action_save_annotations`: the new state, the Python return
value, and the number of error dialogs shown by `_write_json_file`. -/
structure SaveResult where
  state : AppState
  ok : Bool
  errs : Nat
deriving DecidableEq

/-- `_write_json_file` (lines 464-468): on an `IOError` it shows one error
dialog and swallows the exception; the caller never sees the failure.
`ok` is the environment's verdict on the write. -/
def writeJsonErr (ok : Bool) : Nat :=
  if ok then 0 else 1

/-- `_action_save_annotations` (lines 378-401): no-op returning `False`
when no subfolder is loaded; otherwise store the working snapshot under
the current name (the dict `.copy()` is the identity in this pure model;
its aliasing content is modeled separately by `RefState` below), write
both JSON files, append the group to the completed list if absent, clear
the dirty flag, and — unless called from `_action_save_and_next` — reload
the current subfolder. -/
def actionSaveAnnotations (calledFromNext annOk progOk : Bool) (env : Env)
    (st : AppState) : SaveResult :=
  if st.currentName = "" then ⟨st, false, 0⟩
  else
    let st1 : AppState :=
      { st with annotationsData :=
          dictSet st.annotationsData st.currentName ⟨st.annotationTypeVar, st.working⟩ }
    let e1 := writeJsonErr annOk
    let st2 : AppState :=
      { st1 with progressData :=
          if st.currentName ∈ st1.progressData then st1.progressData
          else st1.progressData ++ [st.currentName] }
    let e2 := writeJsonErr progOk
    let st3 : AppState := { st2 with unsavedChanges := false }
    if calledFromNext then ⟨st3, true, e1 + e2⟩
    else ⟨(loadSubfolderByIndex env st3 st3.currentIndex).1, true, e1 + e2⟩

/-- The state produced by the store-mutating part of
`_action_save_annotations` (lines 385-396), before the optional reload. -/
def savedState (st : AppState) : AppState :=
  { st with
      annotationsData :=
        dictSet st.annotationsData st.currentName ⟨st.annotationTypeVar, st.working⟩,
      progressData :=
        if st.currentName ∈ st.progressData then st.progressData
        else st.progressData ++ [st.currentName],
      unsavedChanges := false }

/-- `_action_save_and_next` (lines 403-405): save without the reload, then
load the next subfolder. -/
def actionSaveAndNext (annOk progOk : Bool) (env : Env) (st : AppState) : AppState :=
  let r := actionSaveAnnotations true annOk progOk env st
  if r.ok then (loadSubfolderByIndex env r.state (r.state.currentIndex + 1)).1
  else r.state

/-- `_action_previous_subfolder` (lines 428-431): when dirty, ask for
confirmation (`confirm` is the dialog answer) and stop on refusal;
otherwise attempt to load the previous index.  The returned flag is `true`
iff the boundary message box was shown. -/
def actionPreviousSubfolder (confirm : Bool) (env : Env) (st : AppState) :
    AppState × Bool :=
  if st.unsavedChanges = true ∧ confirm = false then (st, false)
  else loadSubfolderByIndex env st (st.currentIndex - 1)

/-- The `for i, folder in enumerate(...)` scan of `_load_initial_state`:
index of the first entry not in `completed` (the loop's `break`), or
`none` when the loop runs out. -/
def resumeScan (completed : List String) : List String → Nat → Option Nat
  | [], _ => none
  | f :: rest, i => if f ∈ completed then resumeScan completed rest (i + 1) else some i

/-- Resume-position computation of `_load_initial_state` (lines 249-258):
the first subfolder not in the completed list, else
`max(0, len(subfolders) - 1)` via the loop's `else` branch. -/
def startIndex (subfolders completed : List String) : Nat :=
  match resumeScan completed subfolders 0 with
  | some i => i
  | none => max 0 (subfolders.length - 1)

/-- `_load_initial_state` (lines 233-262) after folder discovery and store
loading: with no subfolders nothing is loaded, otherwise the subfolder at
the resume position is loaded. -/
def loadInitialState (env : Env) (st : AppState) : AppState :=
  if st.subfolders = [] then st
  else (loadSubfolderByIndex env st ((startIndex st.subfolders st.progressData : Nat) : Int)).1

/-- State touched by `_add_new_annotation_type`: the registry list, the
combobox variable, the persisted registry file (`annotation_types.json`)
as last successfully written (`none` before any write), and the dirty
flag. -/
structure TypesState where
  annotationTypes : List String
  typeVar : String
  typesFile : Option (List String)
  unsavedChanges : Bool
deriving DecidableEq

/-- Python `str.strip()` (ASCII-whitespace-faithful): drop whitespace
from both ends, implemented structurally so that it evaluates. -/
def pyStrip (s : String) : String :=
  String.mk (((s.data.dropWhile Char.isWhitespace).reverse.dropWhile
    Char.isWhitespace).reverse)

/-- Python `str.lower()` restricted to basic latin letters, as
`Char.toLower` is. -/
def pyLower (s : String) : String :=
  String.mk (s.data.map Char.toLower)

/-- `self.annotation_types.index("other")` followed by `list.insert`, with
the `ValueError` handler appending: insert `t` immediately before the
first `"other"`, else append (lines 208-212). -/
def insertBeforeOther : List String → String → List String
  | [], t => [t]
  | s :: rest, t =>
    if s = "other" then t :: s :: rest else s :: insertBeforeOther rest t

/-- `_add_new_annotation_type` (`draw_boxes_.py` lines 194-218).  `input`
is the dialog result (`none` = cancelled).  ASCII lowering maps no
character into or out of the whitespace class, so checking blankness
before lowering, as the code does, agrees with checking it on the
normalized result. -/
def addNewAnnotationType (input : Option String) (st : TypesState) : TypesState :=
  match input with
  | none => st
  | some raw =>
    if raw = "" ∨ pyStrip raw = "" then st
    else
      let newType := pyStrip (pyLower raw)
      if newType ∈ st.annotationTypes then { st with typeVar := newType }
      else
        let types' := insertBeforeOther st.annotationTypes newType
        { st with annotationTypes := types',
                  typesFile := some types',
                  typeVar := newType,
                  unsavedChanges := true }

/-- The default registry state
(`["paragraphs", "tables", "images", "headings", "other"]`). -/
def tsDefault : TypesState :=
  { annotationTypes := ["paragraphs", "tables", "images", "headings", "other"],
    typeVar := "paragraphs", typesFile := none, unsavedChanges := false }

/-- A minimal concrete session state: one subfolder `"A"` holding the
single image `"i.png"`, with the default category registry. -/
def stA : AppState :=
  { subfolders := ["A"], currentIndex := 0, currentName := "A",
    annotationsData := [], progressData := [], working := [("i.png", [])],
    undoStack := [], unsavedChanges := false, annotationTypeVar := "paragraphs",
    annotationTypes := ["paragraphs", "tables", "images", "headings", "other"] }

/-- The matching filesystem for `stA`. -/
def envA : Env := [("A", ["i.png"])]

/-- The three-group scenario of claim C6: groups `A`, `B`, `C` with `A`
already completed. -/
def stABC : AppState :=
  { subfolders := ["A", "B", "C"], currentIndex := -1, currentName := "",
    annotationsData := [], progressData := ["A"], working := [],
    undoStack := [], unsavedChanges := false, annotationTypeVar := "paragraphs",
    annotationTypes := ["paragraphs", "tables", "images", "headings", "other"] }

/-- The matching filesystem for `stABC`. -/
def envABC : Env := [("A", []), ("B", []), ("C", [])]

/-- Heap of Python list objects for the aliasing analysis of save:
index = object identity, value = current contents. -/
abbrev BoxHeap := List (List Bbox)

/-- Dereference a list id (every id used below is kept in range). -/
def heapGet (h : BoxHeap) (i : Nat) : List Bbox := h.getD i []

/-- In-place mutation of the list object `i`. -/
def heapSet (h : BoxHeap) (i : Nat) (l : List Bbox) : BoxHeap := h.set i l

/-- Reference-level state for claim C2: `storeAnn` is the saved record's
`"annotations"` dict and `working` is
`current_subfolder_active_annotations`, both mapping image names to heap
ids.  `dict.copy()` copies the id mapping only (shallow), while
`list.copy()` allocates a fresh id — exactly the distinction the claim is
about. -/
structure RefState where
  heap : BoxHeap
  storeAnn : List (String × Nat)
  working : List (String × Nat)
  undoStack : List String
deriving DecidableEq

/-- `addBox` at the reference level
(`setdefault(img_name, []).append(bbox)`, line 370): mutate the existing
list object in place, or allocate a fresh one for a new key. -/
def refAddBox (im : String) (b : Bbox) (s : RefState) : RefState :=
  match lookupA s.working im with
  | some i =>
    { s with heap := heapSet s.heap i (heapGet s.heap i ++ [b]),
             undoStack := s.undoStack ++ [im] }
  | none =>
    { s with heap := s.heap ++ [[b]],
             working := s.working ++ [(im, s.heap.length)],
             undoStack := s.undoStack ++ [im] }

/-- `undo` at the reference level (lines 417-426): pop the stack, then pop
the last box of that image's list object in place. -/
def refUndo (s : RefState) : RefState :=
  match s.undoStack.getLast? with
  | none => s
  | some im =>
    let s1 : RefState := { s with undoStack := s.undoStack.dropLast }
    match lookupA s1.working im with
    | some i =>
      if heapGet s1.heap i = [] then s1
      else { s1 with heap := heapSet s1.heap i ((heapGet s1.heap i).dropLast) }
    | none => s1

/-- An in-memory mutation of the working state performed after a save. -/
inductive RefOp where
  | add (im : String) (b : Bbox)
  | undo
deriving DecidableEq

def applyRefOp : RefOp → RefState → RefState
  | RefOp.add im b, s => refAddBox im b s
  | RefOp.undo, s => refUndo s

def applyRefOps (ops : List RefOp) (s : RefState) : RefState :=
  ops.foldl (fun a o => applyRefOp o a) s

/-- `annotations_data[name]["annotations"] =
current_subfolder_active_annotations.copy()` (line 387): a shallow dict
copy — the record shares the working state's list ids. -/
def refSaveShallow (s : RefState) : RefState :=
  { s with storeAnn := s.working }

/-- The per-image loop of `_load_subfolder_by_index`: each displayed image
receives a fresh list object holding a copy of the stored contents
(`annotations.get(img_name, []).copy()`, line 320). -/
def refReloadGo : List String → RefState → RefState
  | [], acc => acc
  | im :: rest, acc =>
    refReloadGo rest
      { acc with
          heap := acc.heap ++ [match lookupA acc.storeAnn im with
                               | some i => heapGet acc.heap i
                               | none => []],
          working := acc.working ++ [(im, acc.heap.length)] }

/-- The reload half of save: clear the working dict and the undo stack
(`_clear_display_and_current_data`), then rebuild the working map with
fresh list objects. -/
def refReload (imgs : List String) (s : RefState) : RefState :=
  refReloadGo imgs { s with working := [], undoStack := [] }

/-- `_action_save_annotations` at the reference level: shallow-copy the
working dict into the store record, then reload the same group
(line 400). -/
def refSave (imgs : List String) (s : RefState) : RefState :=
  refReload imgs (refSaveShallow s)

/-- The saved record's per-image box lists, by value. -/
def derefStore (s : RefState) : List (String × List Bbox) :=
  s.storeAnn.map (fun p => (p.1, heapGet s.heap p.2))

/-- Separation invariant after a save with allocation boundary `H0`:
every stored id lies below `H0`, every working id at or above it (and in
range), and the heap extends past `H0`. -/
def SaveInv (H0 : Nat) (s : RefState) : Prop :=
  (∀ p ∈ s.storeAnn, p.2 < H0)
  ∧ (∀ p ∈ s.working, H0 ≤ p.2 ∧ p.2 < s.heap.length)
  ∧ H0 ≤ s.heap.length

/-- A concrete reference state: one image `"i"` whose list object `0`
holds a single box. -/
def refSample : RefState :=
  { heap := [[⟨0, 0, 10, 10⟩]], storeAnn := [], working := [("i", 0)],
    undoStack := [] }

/-- Claim C1 as stated: a `save()` whose underlying file write fails
leaves `unsaved_changes` true. -/
def C1Claim : Prop :=
  ∀ (env : Env) (st : AppState) (annOk progOk : Bool),
    st.currentName ≠ "" → st.unsavedChanges = true →
    (annOk = false ∨ progOk = false) →
    (actionSaveAnnotations false annOk progOk env st).state.unsavedChanges = true

/-- Claim C10 as stated: after a successful save — alone or as the first
half of save-and-next — the undo stack is empty. -/
def C10Claim : Prop :=
  ∀ (env : Env) (st : AppState),
    st.currentName ≠ "" → 0 ≤ st.currentIndex →
    st.currentIndex < (st.subfolders.length : Int) →
    (actionSaveAnnotations false true true env st).state.undoStack = []
    ∧ (actionSaveAndNext true true env st).undoStack = []

/-- Claim C5 as stated: for every active group (current index valid and
naming the current subfolder, working map keyed exactly by the group's
displayed images), a save followed by the reload it performs reproduces
the identical per-image box lists and the identical selected category. -/
def C5Claim : Prop :=
  ∀ (env : Env) (st : AppState),
    st.currentName ≠ "" → 0 ≤ st.currentIndex →
    st.currentIndex < (st.subfolders.length : Int) →
    st.subfolders.getD st.currentIndex.toNat "" = st.currentName →
    st.working.map Prod.fst = ((lookupA env st.currentName).getD []).take 4 →
    (st.working.map Prod.fst).Nodup →
    (actionSaveAnnotations false true true env st).state.working = st.working
    ∧ (actionSaveAnnotations false true true env st).state.annotationTypeVar
        = st.annotationTypeVar

theorem lookupA_updateA_self {α : Type} (w : List (String × α)) (k : String) (v0 v : α)
    (h : lookupA w k = some v0) : lookupA (updateA w k v) k = some v := by
  induction w with
  | nil => simp [lookupA] at h
  | cons p rest ih =>
    obtain ⟨k', v'⟩ := p
    by_cases hk : k' = k
    · subst hk
      simp [lookupA, updateA]
    · simp only [lookupA, updateA, if_neg hk] at h ⊢
      exact ih h

theorem lookupA_append_single {α : Type} (w : List (String × α)) (k : String) (v : α)
    (h : lookupA w k = none) : lookupA (w ++ [(k, v)]) k = some v := by
  induction w with
  | nil => simp [lookupA]
  | cons p rest ih =>
    obtain ⟨k', v'⟩ := p
    by_cases hk : k' = k
    · simp [lookupA, if_pos hk] at h
    · simp only [lookupA, List.cons_append, if_neg hk] at h ⊢
      exact ih h

theorem updateA_self {α : Type} (w : List (String × α)) (k : String) (v0 : α)
    (h : lookupA w k = some v0) : updateA w k v0 = w := by
  induction w with
  | nil => rfl
  | cons p rest ih =>
    obtain ⟨k', v'⟩ := p
    by_cases hk : k' = k
    · subst hk
      have h' : v' = v0 := by simpa [lookupA] using h
      subst h'
      simp [updateA]
    · simp only [lookupA, if_neg hk] at h
      simp [updateA, if_neg hk, ih h]

theorem updateA_updateA {α : Type} (w : List (String × α)) (k : String) (v1 v2 : α) :
    updateA (updateA w k v1) k v2 = updateA w k v2 := by
  induction w with
  | nil => rfl
  | cons p rest ih =>
    obtain ⟨k', v'⟩ := p
    by_cases hk : k' = k
    · subst hk
      simp [updateA]
    · simp [updateA, if_neg hk, ih]

/-- C3 fails on the code: the `draw_boxes_.py` release handler does not
clamp, so pressing at (0, 0) and releasing at (600, 600) stores the box
`[0, 0, 600, 600]` whose coordinates lie outside `[0, 499]`. -/
theorem c3_counterexample : ¬ C3Claim := by
  intro h
  have h600 : releaseUnderscore 0 0 600 600 = some ⟨0, 0, 600, 600⟩ := by decide
  have hb := h 0 0 600 600 ⟨0, 0, 600, 600⟩ h600
  have : (600 : Int) ≤ 499 := hb.2.2.2.2.2.1
  omega

/-- C3 amended: the `draw_boxes.py` handler produces the canonical
min/max box with every coordinate clamped into `[0, 499]` and both extents
at least 5, and its undersize check is applied both before and after
clamping — the concrete pair press `(-100, 0)`, release `(4, 600)` passes
the raw check and is rejected only by the post-clamp check.  The
`draw_boxes_.py` handler instead applies no clamping and a single
undersize check on the raw canonicalized coordinates (so it accepts that
same pair, producing an out-of-surface box). -/
theorem c3_amended :
    (∀ sx sy ex ey b, releaseClamped sx sy ex ey = some b →
        b.x1 = clampCoord (min sx ex) 500 ∧ b.y1 = clampCoord (min sy ey) 500 ∧
        b.x2 = clampCoord (max sx ex) 500 ∧ b.y2 = clampCoord (max sy ey) 500 ∧
        0 ≤ b.x1 ∧ b.x1 ≤ 499 ∧ 0 ≤ b.y1 ∧ b.y1 ≤ 499 ∧
        0 ≤ b.x2 ∧ b.x2 ≤ 499 ∧ 0 ≤ b.y2 ∧ b.y2 ≤ 499 ∧
        5 ≤ b.x2 - b.x1 ∧ 5 ≤ b.y2 - b.y1)
    ∧ releaseClamped (-100) 0 4 600 = none
    ∧ releaseUnderscore (-100) 0 4 600 = some ⟨-100, 0, 4, 600⟩
    ∧ (∀ sx sy ex ey,
        releaseUnderscore sx sy ex ey =
          if max sx ex - min sx ex < 5 ∨ max sy ey - min sy ey < 5 then none
          else some ⟨min sx ex, min sy ey, max sx ex, max sy ey⟩) := by
  refine ⟨?_, by decide, by decide, ?_⟩
  · intro sx sy ex ey b hb
    simp only [releaseClamped, imageDisplaySize] at hb
    split at hb
    · exact absurd hb (by simp)
    · split at hb
      · exact absurd hb (by simp)
      · rename_i h1 h2
        rw [Option.some.injEq] at hb
        subst hb
        refine ⟨rfl, rfl, rfl, rfl, ?_⟩
        dsimp only
        simp only [clampCoord] at h1 h2 ⊢
        omega
  · intro sx sy ex ey
    simp only [releaseUnderscore]

/-- Closed instance of the amended C3 statement: the clamped handler maps
press `(0, 0)`, release `(501, 700)` to the fully clamped box
`[0, 0, 499, 499]`. -/
theorem c3_amended_witness :
    releaseClamped 0 0 501 700 = some ⟨0, 0, 499, 499⟩ ∧
    (5 : Int) ≤ 499 - 0 := by
  have hc : releaseClamped 0 0 501 700 = some ⟨0, 0, 499, 499⟩ := by decide
  obtain ⟨e1, e2, e3, e4, g1, g2, g3, g4, g5, g6, g7, g8, g9, g10⟩ :=
    c3_amended.1 0 0 501 700 ⟨0, 0, 499, 499⟩ hc
  exact ⟨hc, g9⟩

/-- Claim C8: every stored box is canonical (`x1 ≤ x2`, `y1 ≤ y2`) with
both extents at least 5 — in both source variants — and a press/release
pair with an extent below 5 leaves the slot's box count unchanged while a
valid pair increases it by exactly one. -/
theorem c8_box_invariant (sx sy ex ey : Int) (st : AppState) (im : String) :
    (∀ b, releaseUnderscore sx sy ex ey = some b →
        b.x1 ≤ b.x2 ∧ b.y1 ≤ b.y2 ∧ 5 ≤ b.x2 - b.x1 ∧ 5 ≤ b.y2 - b.y1)
    ∧ (∀ b, releaseClamped sx sy ex ey = some b →
        b.x1 ≤ b.x2 ∧ b.y1 ≤ b.y2 ∧ 5 ≤ b.x2 - b.x1 ∧ 5 ≤ b.y2 - b.y1)
    ∧ (releaseUnderscore sx sy ex ey = none →
        countFor (onCanvasRelease (some im) sx sy ex ey st) im = countFor st im)
    ∧ (releaseUnderscore sx sy ex ey ≠ none →
        countFor (onCanvasRelease (some im) sx sy ex ey st) im = countFor st im + 1) := by
  refine ⟨?_, ?_, ?_, ?_⟩
  · intro b hb
    simp only [releaseUnderscore] at hb
    split at hb
    · exact absurd hb (by simp)
    · rename_i hcond
      rw [Option.some.injEq] at hb
      subst hb
      dsimp only at hcond ⊢
      omega
  · intro b hb
    simp only [releaseClamped, imageDisplaySize, clampCoord] at hb
    split at hb
    · exact absurd hb (by simp)
    · split at hb
      · exact absurd hb (by simp)
      · rename_i h1 h2
        rw [Option.some.injEq] at hb
        subst hb
        dsimp only at h2 ⊢
        omega
  · intro hnone
    simp only [onCanvasRelease, hnone]
  · intro hsome
    cases hb : releaseUnderscore sx sy ex ey with
    | none => exact absurd hb hsome
    | some b =>
      simp only [onCanvasRelease, hb, countFor, addBoxStep, setdefaultAppend]
      cases h : lookupA st.working im with
      | none => simp [lookupA_append_single _ _ _ h]
      | some l => simp [lookupA_updateA_self _ _ _ _ h]

/-- Closed instance of C8: the drag from (0, 0) to (100, 100) on `"i.png"`
adds exactly one box. -/
theorem c8_box_invariant_witness :
    countFor (onCanvasRelease (some "i.png") 0 0 100 100 stA) "i.png" =
      countFor stA "i.png" + 1 :=
  (c8_box_invariant 0 0 100 100 stA "i.png").2.2.2 (by decide)

theorem resumeScan_eq_some (completed l : List String) (i0 i : Nat)
    (hi : i < l.length) (hnot : l.getD i "" ∉ completed)
    (hbefore : ∀ j, j < i → l.getD j "" ∈ completed) :
    resumeScan completed l i0 = some (i0 + i) := by
  induction l generalizing i0 i with
  | nil => simp at hi
  | cons f rest ih =>
    by_cases hf : f ∈ completed
    · cases i with
      | zero => exact absurd hf (by simpa using hnot)
      | succ i' =>
        have := ih (i0 + 1) i' (by simpa using hi) (by simpa using hnot)
          (fun j hj => by simpa using hbefore (j + 1) (by omega))
        simp only [resumeScan, if_pos hf]
        rw [this]
        congr 1
        omega
    · have hi0 : i = 0 := by
        by_contra hne
        exact hf (by simpa using hbefore 0 (by omega))
      subst hi0
      simp [resumeScan, hf]

theorem resumeScan_eq_none (completed l : List String) (i0 : Nat)
    (hall : ∀ g ∈ l, g ∈ completed) :
    resumeScan completed l i0 = none := by
  induction l generalizing i0 with
  | nil => rfl
  | cons f rest ih =>
    have hf : f ∈ completed := hall f (by simp)
    simp only [resumeScan, if_pos hf]
    exact ih (i0 + 1) (fun g hg => hall g (by simp [hg]))

/-- Claim C6: on startup the session resumes at the first group not in the
completed set; when every group is completed it falls back to the last
group; in the scenario with groups `["A", "B", "C"]` and completed set
`["A"]`, the loaded group is `"B"`. -/
theorem c6_resume_position (groups completed : List String) :
    (∀ i : Nat, i < groups.length → groups.getD i "" ∉ completed →
        (∀ j, j < i → groups.getD j "" ∈ completed) →
        startIndex groups completed = i)
    ∧ ((∀ g ∈ groups, g ∈ completed) →
        startIndex groups completed = groups.length - 1)
    ∧ startIndex ["A", "B", "C"] ["A"] = 1
    ∧ (loadInitialState envABC stABC).currentName = "B" := by
  refine ⟨?_, ?_, by decide, by decide⟩
  · intro i hi hnot hbefore
    unfold startIndex
    rw [resumeScan_eq_some completed groups 0 i hi hnot hbefore]
    simp
  · intro hall
    unfold startIndex
    rw [resumeScan_eq_none completed groups 0 hall]
    simp

/-- Closed instance of C6: with groups `["A", "B", "C"]` and completed set
`["A"]` the resume index is 1, i.e. group `"B"`. -/
theorem c6_resume_position_witness :
    startIndex ["A", "B", "C"] ["A"] = 1 ∧
    (loadInitialState envABC stABC).currentName = "B" :=
  ⟨(c6_resume_position ["A", "B", "C"] ["A"]).2.2.1,
   (c6_resume_position ["A", "B", "C"] ["A"]).2.2.2⟩

/-- Claim C9: `previous()` on the first group (index 0) shows the boundary
message and leaves the whole state unchanged — in particular the active
group index, the per-image box lists, the undo history and the dirty flag.
`confirm` is the answer to the unsaved-changes dialog, which is only shown
when the dirty flag is set. -/
theorem c9_previous_at_start (env : Env) (st : AppState) (confirm : Bool)
    (h0 : st.currentIndex = 0)
    (hc : st.unsavedChanges = false ∨ confirm = true) :
    actionPreviousSubfolder confirm env st = (st, true) := by
  unfold actionPreviousSubfolder
  have hgate : ¬(st.unsavedChanges = true ∧ confirm = false) := by
    rcases hc with h | h <;> simp [h]
  rw [if_neg hgate]
  unfold loadSubfolderByIndex
  have hrange : ¬(0 ≤ st.currentIndex - 1 ∧
      st.currentIndex - 1 < (st.subfolders.length : Int)) := by
    rw [h0]
    omega
  rw [if_neg hrange]

/-- Closed instance of C9 on the one-group state `stA`. -/
theorem c9_previous_at_start_witness :
    actionPreviousSubfolder true envA stA = (stA, true) :=
  c9_previous_at_start envA stA true rfl (Or.inl rfl)

theorem load_unsavedChanges_false (env : Env) (st : AppState) (idx : Int)
    (h : st.unsavedChanges = false) :
    (loadSubfolderByIndex env st idx).1.unsavedChanges = false := by
  unfold loadSubfolderByIndex
  split
  · rfl
  · exact h

theorem load_inrange_undoStack (env : Env) (st : AppState) (idx : Int)
    (h : 0 ≤ idx ∧ idx < (st.subfolders.length : Int)) :
    (loadSubfolderByIndex env st idx).1.undoStack = [] := by
  unfold loadSubfolderByIndex
  rw [if_pos h]
  rfl

theorem load_outrange (env : Env) (st : AppState) (idx : Int)
    (h : ¬(0 ≤ idx ∧ idx < (st.subfolders.length : Int))) :
    (loadSubfolderByIndex env st idx).1 = st := by
  unfold loadSubfolderByIndex
  rw [if_neg h]

theorem actionSave_eq (calledFromNext annOk progOk : Bool) (env : Env) (st : AppState)
    (hname : st.currentName ≠ "") :
    actionSaveAnnotations calledFromNext annOk progOk env st =
      ⟨if calledFromNext then savedState st
        else (loadSubfolderByIndex env (savedState st) st.currentIndex).1,
       true, writeJsonErr annOk + writeJsonErr progOk⟩ := by
  unfold actionSaveAnnotations savedState
  rw [if_neg hname]
  cases calledFromNext <;> rfl

/-- C1 fails on the code: with both writes failing, saving the dirty
one-group state still clears the dirty flag, because `_write_json_file`
swallows the `IOError` after showing a dialog and
`_action_save_annotations` runs on to `self.unsaved_changes = False`. -/
theorem c1_counterexample : ¬ C1Claim := by
  intro h
  have := h envA { stA with unsavedChanges := true } false false (by decide) rfl
    (Or.inl rfl)
  exact absurd this (by decide)

/-- C1 amended: a failing store write is reported through an error dialog,
but the save is not reported to the caller as failed — it still returns
`True` — and the dirty flag is cleared anyway. -/
theorem c1_amended (env : Env) (st : AppState) (calledFromNext annOk progOk : Bool)
    (hname : st.currentName ≠ "") (hfail : annOk = false ∨ progOk = false) :
    (actionSaveAnnotations calledFromNext annOk progOk env st).state.unsavedChanges = false
    ∧ (actionSaveAnnotations calledFromNext annOk progOk env st).ok = true
    ∧ 1 ≤ (actionSaveAnnotations calledFromNext annOk progOk env st).errs := by
  rw [actionSave_eq calledFromNext annOk progOk env st hname]
  refine ⟨?_, rfl, ?_⟩
  · cases calledFromNext with
    | true => rfl
    | false => exact load_unsavedChanges_false env (savedState st) st.currentIndex rfl
  · rcases hfail with h | h <;> subst h <;> simp [writeJsonErr]

/-- Closed instance of the amended C1 statement on `stA` with both writes
failing. -/
theorem c1_amended_witness :
    (actionSaveAnnotations false false false envA stA).state.unsavedChanges = false
    ∧ (actionSaveAnnotations false false false envA stA).ok = true
    ∧ 1 ≤ (actionSaveAnnotations false false false envA stA).errs :=
  c1_amended envA stA false false false (by decide) (Or.inl rfl)

/-- C10 fails on the code: on the last (here: only) subfolder,
`_action_save_and_next` saves without reloading and then calls
`_load_subfolder_by_index` with an out-of-range index, which returns
before clearing anything — so the undo stack survives the save. -/
theorem c10_counterexample : ¬ C10Claim := by
  intro h
  have := (h envA { stA with undoStack := ["i.png"] } (by decide) (by decide)
    (by decide)).2
  exact absurd this (by decide)

/-- C10 amended: a stand-alone save always reloads the current group and
so empties the undo stack; save-and-next empties it exactly when a next
group exists, while on the last group the out-of-range load is rejected
and the undo stack is left as it was. -/
theorem c10_amended (env : Env) (st : AppState)
    (hname : st.currentName ≠ "") (h0 : 0 ≤ st.currentIndex)
    (hlt : st.currentIndex < (st.subfolders.length : Int)) :
    (actionSaveAnnotations false true true env st).state.undoStack = []
    ∧ (st.currentIndex + 1 < (st.subfolders.length : Int) →
        (actionSaveAndNext true true env st).undoStack = [])
    ∧ (¬ st.currentIndex + 1 < (st.subfolders.length : Int) →
        (actionSaveAndNext true true env st).undoStack = st.undoStack) := by
  refine ⟨?_, ?_, ?_⟩
  · rw [actionSave_eq false true true env st hname]
    exact load_inrange_undoStack env (savedState st) st.currentIndex ⟨h0, hlt⟩
  · intro hnext
    unfold actionSaveAndNext
    rw [actionSave_eq true true true env st hname]
    exact load_inrange_undoStack env (savedState st) (st.currentIndex + 1)
      ⟨by omega, hnext⟩
  · intro hlast
    unfold actionSaveAndNext
    rw [actionSave_eq true true true env st hname]
    have hcond : ¬(0 ≤ st.currentIndex + 1 ∧
        st.currentIndex + 1 < (st.subfolders.length : Int)) := by
      intro hc
      exact hlast hc.2
    have heq :
        (loadSubfolderByIndex env (savedState st) (st.currentIndex + 1)).1.undoStack
          = (savedState st).undoStack := by
      rw [load_outrange env (savedState st) (st.currentIndex + 1) hcond]
    exact heq

/-- Closed instance of the amended C10 statement: on the one-group session
with one undo entry, a stand-alone save empties the stack while
save-and-next (at the last group) leaves the entry in place. -/
theorem c10_amended_witness :
    (actionSaveAnnotations false true true envA
        { stA with undoStack := ["i.png"] }).state.undoStack = []
    ∧ (actionSaveAndNext true true envA
        { stA with undoStack := ["i.png"] }).undoStack = ["i.png"] := by
  have h := c10_amended envA { stA with undoStack := ["i.png"] } (by decide)
    (by decide) (by decide)
  exact ⟨h.1, h.2.2 (by decide)⟩

theorem insertBeforeOther_no_other (types : List String) (t : String)
    (h : "other" ∉ types) : insertBeforeOther types t = types ++ [t] := by
  induction types with
  | nil => rfl
  | cons s rest ih =>
    have hs : s ≠ "other" := by
      intro he
      exact h (by simp [he])
    simp only [insertBeforeOther, if_neg hs, List.cons_append]
    rw [ih (fun hm => h (by simp [hm]))]

theorem insertBeforeOther_split (pre post : List String) (t : String)
    (hpre : "other" ∉ pre) :
    insertBeforeOther (pre ++ "other" :: post) t = pre ++ t :: "other" :: post := by
  induction pre with
  | nil => simp [insertBeforeOther]
  | cons s rest ih =>
    have hs : s ≠ "other" := by
      intro he
      exact hpre (by simp [he])
    simp only [List.cons_append, insertBeforeOther, if_neg hs, List.append_eq]
    rw [ih (fun hm => hpre (by simp [hm]))]

/-- Claim C7: `addNew` normalizes by trimming and lowercasing; a cancelled
or blank input is a no-op; an already-present normalized name leaves the
registry (and its persisted file) unchanged and selects the existing
entry; a new name is inserted immediately before the first `"other"`
sentinel when present, else appended, and the updated list is persisted
before returning. -/
theorem c7_add_new_type (raw : String) (st : TypesState) :
    (addNewAnnotationType none st = st)
    ∧ (pyStrip raw = "" → addNewAnnotationType (some raw) st = st)
    ∧ (pyStrip raw ≠ "" → pyStrip (pyLower raw) ∈ st.annotationTypes →
        (addNewAnnotationType (some raw) st).annotationTypes = st.annotationTypes
        ∧ (addNewAnnotationType (some raw) st).annotationTypes.length
            = st.annotationTypes.length
        ∧ (addNewAnnotationType (some raw) st).typeVar = pyStrip (pyLower raw)
        ∧ (addNewAnnotationType (some raw) st).typesFile = st.typesFile)
    ∧ (pyStrip raw ≠ "" → pyStrip (pyLower raw) ∉ st.annotationTypes →
        (addNewAnnotationType (some raw) st).annotationTypes
            = insertBeforeOther st.annotationTypes (pyStrip (pyLower raw))
        ∧ (addNewAnnotationType (some raw) st).typesFile
            = some (addNewAnnotationType (some raw) st).annotationTypes
        ∧ (addNewAnnotationType (some raw) st).typeVar = pyStrip (pyLower raw))
    ∧ (∀ t, "other" ∉ st.annotationTypes →
        insertBeforeOther st.annotationTypes t = st.annotationTypes ++ [t])
    ∧ (∀ t pre post, "other" ∉ pre →
        st.annotationTypes = pre ++ "other" :: post →
        insertBeforeOther st.annotationTypes t = pre ++ t :: "other" :: post) := by
  refine ⟨rfl, ?_, ?_, ?_, ?_, ?_⟩
  · intro htrim
    simp only [addNewAnnotationType, if_pos (Or.inr htrim)]
  · intro htrim hmem
    have hcond : ¬(raw = "" ∨ pyStrip raw = "") := by
      rintro (h | h)
      · subst h
        exact htrim rfl
      · exact htrim h
    simp only [addNewAnnotationType, if_neg hcond, if_pos hmem]
    refine ⟨?_, ?_, ?_, ?_⟩ <;> trivial
  · intro htrim hmem
    have hcond : ¬(raw = "" ∨ pyStrip raw = "") := by
      rintro (h | h)
      · subst h
        exact htrim rfl
      · exact htrim h
    simp only [addNewAnnotationType, if_neg hcond, if_neg hmem]
    refine ⟨?_, ?_, ?_⟩ <;> trivial
  · intro t hother
    exact insertBeforeOther_no_other st.annotationTypes t hother
  · intro t pre post hpre hsplit
    rw [hsplit]
    exact insertBeforeOther_split pre post t hpre

/-- Closed instance of C7: `addNew("Tables")` on the default registry
(which already holds `"tables"`) keeps the registry length and selects the
existing `"tables"` entry. -/
theorem c7_add_new_type_witness :
    (addNewAnnotationType (some "Tables") tsDefault).annotationTypes.length
      = tsDefault.annotationTypes.length
    ∧ (addNewAnnotationType (some "Tables") tsDefault).typeVar = "tables" := by
  have h := (c7_add_new_type "Tables" tsDefault).2.2.1 (by decide) (by decide)
  refine ⟨h.2.1, ?_⟩
  rw [h.2.2.1]
  rfl

theorem lookupA_updateA_other {α : Type} (w : List (String × α)) (k x : String) (v : α)
    (hx : x ≠ k) : lookupA (updateA w k v) x = lookupA w x := by
  induction w with
  | nil => rfl
  | cons p rest ih =>
    obtain ⟨k', v'⟩ := p
    by_cases hk : k' = k
    · subst hk
      have : k' ≠ x := fun he => hx he.symm
      simp [updateA, lookupA, this]
    · by_cases hx' : k' = x
      · subst hx'
        simp [updateA, lookupA, hk]
      · simp [updateA, lookupA, hk, hx', ih]

theorem lookupA_append_left {α : Type} (w z : List (String × α)) (x : String) (v : α)
    (h : lookupA w x = some v) : lookupA (w ++ z) x = some v := by
  induction w with
  | nil => simp [lookupA] at h
  | cons p rest ih =>
    obtain ⟨k', v'⟩ := p
    by_cases hk : k' = x
    · simp only [lookupA, if_pos hk] at h
      simp [lookupA, if_pos hk, h]
    · simp only [lookupA, List.cons_append, if_neg hk] at h ⊢
      exact ih h

theorem isSome_setdefaultAppend (w : List (String × List Bbox)) (im x : String)
    (b : Bbox) (h : (lookupA w x).isSome) :
    (lookupA (setdefaultAppend w im b) x).isSome := by
  obtain ⟨v, hv⟩ := Option.isSome_iff_exists.mp h
  unfold setdefaultAppend
  cases him : lookupA w im with
  | some l =>
    by_cases hx : x = im
    · subst hx
      rw [lookupA_updateA_self w x l (l ++ [b]) him]
      rfl
    · rw [lookupA_updateA_other w im x (l ++ [b]) hx, hv]
      rfl
  | none =>
    have hx : x ≠ im := by
      intro he
      subst he
      rw [him] at hv
      cases hv
    rw [lookupA_append_left w [(im, [b])] x v hv]
    rfl

theorem isSome_applyAdds (adds : List (String × Bbox)) (st : AppState) (x : String)
    (h : (lookupA st.working x).isSome) :
    (lookupA (applyAdds adds st).working x).isSome := by
  induction adds generalizing st with
  | nil => exact h
  | cons p rest ih =>
    exact ih (addBoxStep p.1 p.2 st) (isSome_setdefaultAppend st.working p.1 x p.2 h)

theorem addBoxStep_withDirty (im : String) (b : Bbox) (s : AppState) :
    addBoxStep im b (withDirty s) = addBoxStep im b s := rfl

theorem withDirty_addBoxStep (im : String) (b : Bbox) (s : AppState) :
    withDirty (addBoxStep im b s) = addBoxStep im b s := rfl

theorem withDirty_withDirty (s : AppState) :
    withDirty (withDirty s) = withDirty s := rfl

theorem applyAdds_withDirty (adds : List (String × Bbox)) (st : AppState) :
    applyAdds adds (withDirty st) = withDirty (applyAdds adds st) := by
  induction adds generalizing st with
  | nil => rfl
  | cons p rest ih =>
    show applyAdds rest (addBoxStep p.1 p.2 (withDirty st))
      = withDirty (applyAdds rest (addBoxStep p.1 p.2 st))
    rw [addBoxStep_withDirty]
    calc applyAdds rest (addBoxStep p.1 p.2 st)
        = applyAdds rest (withDirty (addBoxStep p.1 p.2 st)) := by
          rw [withDirty_addBoxStep]
      _ = withDirty (applyAdds rest (addBoxStep p.1 p.2 st)) := ih _

theorem actionUndo_addBoxStep (im : String) (b : Bbox) (s : AppState) (l : List Bbox)
    (hl : lookupA s.working im = some l) :
    actionUndo (addBoxStep im b s) = withDirty s := by
  have hw : setdefaultAppend s.working im b = updateA s.working im (l ++ [b]) := by
    unfold setdefaultAppend
    rw [hl]
  have hlook : lookupA (updateA s.working im (l ++ [b])) im = some (l ++ [b]) :=
    lookupA_updateA_self s.working im l (l ++ [b]) hl
  unfold actionUndo addBoxStep withDirty
  simp only [hw, List.getLast?_concat, List.dropLast_concat, hlook]
  rw [if_neg (by simp : ¬(l ++ [b] = []))]
  rw [updateA_updateA, updateA_self s.working im l hl]

theorem undoN_applyAdds (k : Nat) : ∀ (adds : List (String × Bbox)) (st : AppState),
    k ≤ adds.length → (∀ p ∈ adds, (lookupA st.working p.1).isSome) →
    undoN k (applyAdds adds st) =
      if k = 0 then applyAdds adds st
      else withDirty (applyAdds (adds.take (adds.length - k)) st) := by
  induction k with
  | zero =>
    intro adds st _ _
    rfl
  | succ k ih =>
    intro adds st hk hpres
    rcases List.eq_nil_or_concat adds with rfl | ⟨front, p, hfp⟩
    · simp at hk
    · rw [List.concat_eq_append] at hfp
      subst hfp
      have happ : applyAdds (front ++ [p]) st = addBoxStep p.1 p.2 (applyAdds front st) := by
        simp [applyAdds]
      have hpre : (lookupA (applyAdds front st).working p.1).isSome :=
        isSome_applyAdds front st p.1 (hpres p (by simp))
      obtain ⟨l, hl⟩ := Option.isSome_iff_exists.mp hpre
      have hundo : actionUndo (applyAdds (front ++ [p]) st) = withDirty (applyAdds front st) := by
        rw [happ]
        exact actionUndo_addBoxStep p.1 p.2 (applyAdds front st) l hl
      have hklen : k ≤ front.length := by
        have := hk
        simp only [List.length_append, List.length_cons, List.length_nil] at this
        omega
      have hih := ih front (withDirty st) hklen
        (fun q hq => hpres q (by simp [hq]))
      show undoN k (actionUndo (applyAdds (front ++ [p]) st)) = _
      rw [hundo, ← applyAdds_withDirty, hih]
      have htake : (front ++ [p]).take (front.length - k) = front.take (front.length - k) :=
        List.take_append_of_le_length (by omega)
      cases k with
      | zero =>
        rw [if_pos rfl, if_neg (Nat.succ_ne_zero 0)]
        rw [applyAdds_withDirty]
        have hl2 : (front ++ [p]).length - (0 + 1) = front.length := by
          simp only [List.length_append, List.length_cons, List.length_nil]
          omega
        rw [hl2]
        have hl3 : (front ++ [p]).take front.length = front := List.take_left front [p]
        rw [hl3]
      | succ k' =>
        rw [if_neg (Nat.succ_ne_zero k'), if_neg (Nat.succ_ne_zero (k' + 1))]
        rw [applyAdds_withDirty, withDirty_withDirty]
        have hl2 : (front ++ [p]).length - (k' + 1 + 1) = front.length - (k' + 1) := by
          simp only [List.length_append, List.length_cons, List.length_nil]
          omega
        rw [hl2, htake]

/-- Claim C4: from a freshly loaded group (empty undo stack, every
drawable image already keyed in the working map), boxes added via the
accepted `addBox` path are removed by undo in exact reverse chronological
order regardless of which slot they were drawn on — after `k ≤ n` undos
the box lists and the undo stack are exactly those after the first
`n - k` adds — and after `n` undos the per-image box lists and the stack
are back to the as-loaded state; undo with an empty history is a no-op. -/
theorem c4_undo_reverse (st : AppState) (adds : List (String × Bbox)) (k : Nat)
    (hstack : st.undoStack = [])
    (hkeys : ∀ p ∈ adds, (lookupA st.working p.1).isSome)
    (hk : k ≤ adds.length) :
    ((undoN k (applyAdds adds st)).working
        = (applyAdds (adds.take (adds.length - k)) st).working
      ∧ (undoN k (applyAdds adds st)).undoStack
        = (applyAdds (adds.take (adds.length - k)) st).undoStack)
    ∧ (undoN adds.length (applyAdds adds st)).working = st.working
    ∧ (undoN adds.length (applyAdds adds st)).undoStack = []
    ∧ actionUndo st = st := by
  have hmain := undoN_applyAdds k adds st hk hkeys
  have hmainN := undoN_applyAdds adds.length adds st (le_refl _) hkeys
  refine ⟨?_, ?_, ?_, ?_⟩
  · rw [hmain]
    by_cases h0 : k = 0
    · subst h0
      rw [if_pos rfl]
      simp
    · rw [if_neg h0]
      exact ⟨rfl, rfl⟩
  · rw [hmainN]
    by_cases h0 : adds.length = 0
    · rw [if_pos h0]
      have hnil : adds = [] := List.length_eq_zero.mp h0
      subst hnil
      rfl
    · rw [if_neg h0, Nat.sub_self]
      simp [applyAdds, withDirty]
  · rw [hmainN]
    by_cases h0 : adds.length = 0
    · rw [if_pos h0]
      have hnil : adds = [] := List.length_eq_zero.mp h0
      subst hnil
      exact hstack
    · rw [if_neg h0, Nat.sub_self]
      simp [applyAdds, withDirty, hstack]
  · unfold actionUndo
    rw [hstack]
    rfl

/-- Closed instance of C4: two boxes drawn on `"i.png"` in `stA`, then two
undos, restore the as-loaded working map. -/
theorem c4_undo_reverse_witness :
    (undoN 2 (applyAdds [("i.png", ⟨0, 0, 10, 10⟩), ("i.png", ⟨1, 1, 20, 20⟩)] stA)).working
      = stA.working :=
  (c4_undo_reverse stA [("i.png", ⟨0, 0, 10, 10⟩), ("i.png", ⟨1, 1, 20, 20⟩)] 2 rfl
    (by decide) (by decide)).2.1

theorem lookupA_dictSet_self {α : Type} (d : List (String × α)) (k : String) (v : α) :
    lookupA (dictSet d k v) k = some v := by
  induction d with
  | nil => simp [dictSet, lookupA]
  | cons p rest ih =>
    obtain ⟨k', v'⟩ := p
    by_cases hk : k' = k
    · subst hk
      simp [dictSet, lookupA]
    · simp [dictSet, lookupA, hk, ih]

theorem map_lookup_self (w : List (String × List Bbox))
    (hnodup : (w.map Prod.fst).Nodup) :
    (w.map Prod.fst).map (fun im => (im, (lookupA w im).getD [])) = w := by
  induction w with
  | nil => rfl
  | cons p rest ih =>
    obtain ⟨k, v⟩ := p
    simp only [List.map_cons] at hnodup ⊢
    have hknotin : k ∉ rest.map Prod.fst := (List.nodup_cons.mp hnodup).1
    have hrest : (rest.map Prod.fst).Nodup := (List.nodup_cons.mp hnodup).2
    have hhead : lookupA ((k, v) :: rest) k = some v := by
      simp [lookupA]
    rw [hhead]
    have htail : (rest.map Prod.fst).map
        (fun im => (im, (lookupA ((k, v) :: rest) im).getD []))
        = (rest.map Prod.fst).map (fun im => (im, (lookupA rest im).getD [])) := by
      refine List.map_congr_left ?_
      intro x hx
      have hxk : ¬(k = x) := fun he => hknotin (he ▸ hx)
      simp [lookupA, hxk]
    rw [htail, ih hrest]
    rfl

theorem load_roundtrip (env : Env) (s : AppState) (idx : Int)
    (hidx : 0 ≤ idx ∧ idx < (s.subfolders.length : Int))
    (name : String) (hn : s.subfolders.getD idx.toNat "" = name)
    (r : SubRecord) (hr : lookupA s.annotationsData name = some r)
    (hcat : r.typeOf ∈ displayTypes s.annotationTypes)
    (hkeys : r.annotations.map Prod.fst = ((lookupA env name).getD []).take 4)
    (hnodup : (r.annotations.map Prod.fst).Nodup) :
    (loadSubfolderByIndex env s idx).1.working = r.annotations
    ∧ (loadSubfolderByIndex env s idx).1.annotationTypeVar = r.typeOf := by
  unfold loadSubfolderByIndex
  rw [if_pos hidx]
  dsimp only
  rw [hn, hr]
  dsimp only
  rw [if_pos hcat]
  constructor
  · rw [← hkeys]
    exact map_lookup_self r.annotations hnodup
  · rfl

/-- C5 fails on the code: when the selected category is `"other"`
(reachable via the duplicate branch of `_add_new_annotation_type`), the
reload inside save finds the stored category missing from the combobox
values — `"other"` is filtered out — and silently replaces it with the
first display entry, so the category does not survive the round trip. -/
theorem c5_counterexample : ¬ C5Claim := by
  intro h
  have := h envA { stA with annotationTypeVar := "other" } (by decide) (by decide)
    (by decide) (by decide) (by decide) (by decide)
  exact absurd this.2 (by decide)

/-- C5 amended: the save/reload round trip reproduces the identical
per-image box lists, and reproduces the identical selected category
whenever that category is one of the displayable registry entries (every
category other than the filtered-out `"other"` sentinel); a
non-displayable category is replaced by the first display entry on
reload. -/
theorem c5_amended (env : Env) (st : AppState)
    (hname : st.currentName ≠ "") (h0 : 0 ≤ st.currentIndex)
    (hlt : st.currentIndex < (st.subfolders.length : Int))
    (hsub : st.subfolders.getD st.currentIndex.toNat "" = st.currentName)
    (hkeys : st.working.map Prod.fst = ((lookupA env st.currentName).getD []).take 4)
    (hnodup : (st.working.map Prod.fst).Nodup)
    (hcat : st.annotationTypeVar ∈ displayTypes st.annotationTypes) :
    (actionSaveAnnotations false true true env st).state.working = st.working
    ∧ (actionSaveAnnotations false true true env st).state.annotationTypeVar
        = st.annotationTypeVar := by
  rw [actionSave_eq false true true env st hname]
  have hload := load_roundtrip env (savedState st) st.currentIndex ⟨h0, hlt⟩
    st.currentName hsub ⟨st.annotationTypeVar, st.working⟩
    (lookupA_dictSet_self st.annotationsData st.currentName
      ⟨st.annotationTypeVar, st.working⟩)
    hcat hkeys hnodup
  exact ⟨hload.1, hload.2⟩

/-- Closed instance of the amended C5 statement on `stA` (category
`"paragraphs"`, one image with no boxes). -/
theorem c5_amended_witness :
    (actionSaveAnnotations false true true envA stA).state.working = stA.working
    ∧ (actionSaveAnnotations false true true envA stA).state.annotationTypeVar
        = stA.annotationTypeVar :=
  c5_amended envA stA (by decide) (by decide) (by decide) (by decide) (by decide)
    (by decide) (by decide)

theorem lookupA_mem {α : Type} (w : List (String × α)) (k : String) (v : α)
    (h : lookupA w k = some v) : (k, v) ∈ w := by
  induction w with
  | nil => simp [lookupA] at h
  | cons p rest ih =>
    obtain ⟨k', v'⟩ := p
    by_cases hk : k' = k
    · subst hk
      have h' : v' = v := by simpa [lookupA] using h
      subst h'
      simp
    · simp only [lookupA, if_neg hk] at h
      simp [ih h]

theorem take_set_of_le {α : Type} (h : List α) (i : Nat) (l : α) (n : Nat)
    (hn : n ≤ i) : (h.set i l).take n = h.take n := by
  induction h generalizing i n with
  | nil => simp
  | cons a rest ih =>
    cases i with
    | zero =>
      have : n = 0 := by omega
      subst this
      simp
    | succ i' =>
      cases n with
      | zero => simp
      | succ n' =>
        simp only [List.set_cons_succ, List.take_succ_cons]
        rw [ih i' n' (by omega)]

theorem getD_take {α : Type} (h : List α) (n i : Nat) (hi : i < n) (d : α) :
    (h.take n).getD i d = h.getD i d := by
  induction h generalizing n i with
  | nil => simp
  | cons a rest ih =>
    cases n with
    | zero => omega
    | succ n' =>
      cases i with
      | zero => simp
      | succ i' =>
        simp only [List.take_succ_cons, List.getD_cons_succ]
        exact ih n' i' (by omega)

theorem heapGet_eq_of_take_eq (h h' : BoxHeap) (H0 i : Nat) (hi : i < H0)
    (ht : h.take H0 = h'.take H0) : heapGet h i = heapGet h' i := by
  unfold heapGet
  rw [← getD_take h H0 i hi [], ← getD_take h' H0 i hi [], ht]

theorem refStep_preserves (H0 : Nat) (s : RefState) (o : RefOp)
    (hinv : SaveInv H0 s) :
    SaveInv H0 (applyRefOp o s)
    ∧ (applyRefOp o s).storeAnn = s.storeAnn
    ∧ (applyRefOp o s).heap.take H0 = s.heap.take H0 := by
  obtain ⟨hso, hwk, hlen⟩ := hinv
  cases o with
  | add im b =>
    show SaveInv H0 (refAddBox im b s) ∧ (refAddBox im b s).storeAnn = s.storeAnn
      ∧ (refAddBox im b s).heap.take H0 = s.heap.take H0
    unfold refAddBox
    cases hidx : lookupA s.working im with
    | some i =>
      dsimp only
      obtain ⟨hge, hlt⟩ := hwk (im, i) (lookupA_mem s.working im i hidx)
      refine ⟨⟨hso, ?_, ?_⟩, rfl, take_set_of_le s.heap i _ H0 hge⟩
      · intro p hp
        have := hwk p hp
        simpa [heapSet, List.length_set] using this
      · simpa [heapSet, List.length_set] using hlen
    | none =>
      dsimp only
      refine ⟨⟨hso, ?_, ?_⟩, rfl, ?_⟩
      · intro p hp
        simp only [List.mem_append, List.mem_singleton] at hp
        rcases hp with hp | hp
        · have := hwk p hp
          simp only [List.length_append, List.length_cons, List.length_nil]
          omega
        · subst hp
          simp only [List.length_append, List.length_cons, List.length_nil]
          omega
      · simp only [List.length_append, List.length_cons, List.length_nil]
        omega
      · exact List.take_append_of_le_length hlen
  | undo =>
    show SaveInv H0 (refUndo s) ∧ (refUndo s).storeAnn = s.storeAnn
      ∧ (refUndo s).heap.take H0 = s.heap.take H0
    unfold refUndo
    cases hlast : s.undoStack.getLast? with
    | none => exact ⟨⟨hso, hwk, hlen⟩, rfl, rfl⟩
    | some im =>
      dsimp only
      cases hidx : lookupA s.working im with
      | some i =>
        dsimp only
        obtain ⟨hge, hlt⟩ := hwk (im, i) (lookupA_mem s.working im i hidx)
        by_cases hemp : heapGet s.heap i = []
        · rw [if_pos hemp]
          exact ⟨⟨hso, hwk, hlen⟩, rfl, rfl⟩
        · rw [if_neg hemp]
          refine ⟨⟨hso, ?_, ?_⟩, rfl, take_set_of_le s.heap i _ H0 hge⟩
          · intro p hp
            have := hwk p hp
            simpa [heapSet, List.length_set] using this
          · simpa [heapSet, List.length_set] using hlen
      | none =>
        dsimp only
        exact ⟨⟨hso, hwk, hlen⟩, rfl, rfl⟩

theorem refOps_preserve (H0 : Nat) (ops : List RefOp) : ∀ (s : RefState),
    SaveInv H0 s →
    SaveInv H0 (applyRefOps ops s)
    ∧ (applyRefOps ops s).storeAnn = s.storeAnn
    ∧ (applyRefOps ops s).heap.take H0 = s.heap.take H0 := by
  induction ops with
  | nil => exact fun s hinv => ⟨hinv, rfl, rfl⟩
  | cons o rest ih =>
    intro s hinv
    have h1 := refStep_preserves H0 s o hinv
    have h2 := ih (applyRefOp o s) h1.1
    exact ⟨h2.1, h2.2.1.trans h1.2.1, h2.2.2.trans h1.2.2⟩

theorem derefStore_congr (H0 : Nat) (s s' : RefState)
    (hso : ∀ p ∈ s.storeAnn, p.2 < H0)
    (hstore : s'.storeAnn = s.storeAnn)
    (htake : s'.heap.take H0 = s.heap.take H0) :
    derefStore s' = derefStore s := by
  unfold derefStore
  rw [hstore]
  refine List.map_congr_left ?_
  intro p hp
  rw [heapGet_eq_of_take_eq s'.heap s.heap H0 p.2 (hso p hp) htake]

theorem refReloadGo_spec (imgs : List String) : ∀ (acc : RefState),
    (refReloadGo imgs acc).storeAnn = acc.storeAnn
    ∧ (∃ ext, (refReloadGo imgs acc).heap = acc.heap ++ ext)
    ∧ (∀ p ∈ (refReloadGo imgs acc).working,
        p ∈ acc.working
        ∨ (acc.heap.length ≤ p.2 ∧ p.2 < (refReloadGo imgs acc).heap.length)) := by
  induction imgs with
  | nil =>
    intro acc
    exact ⟨rfl, ⟨[], by simp [refReloadGo]⟩, fun p hp => Or.inl hp⟩
  | cons im rest ih =>
    intro acc
    have hstep : refReloadGo (im :: rest) acc =
        refReloadGo rest
          { acc with
              heap := acc.heap ++ [match lookupA acc.storeAnn im with
                                   | some i => heapGet acc.heap i
                                   | none => []],
              working := acc.working ++ [(im, acc.heap.length)] } := rfl
    obtain ⟨hs, ⟨ext, hh⟩, hw⟩ := ih
      { acc with
          heap := acc.heap ++ [match lookupA acc.storeAnn im with
                               | some i => heapGet acc.heap i
                               | none => []],
          working := acc.working ++ [(im, acc.heap.length)] }
    rw [hstep]
    refine ⟨hs, ?_, ?_⟩
    · refine ⟨(match lookupA acc.storeAnn im with
               | some i => heapGet acc.heap i
               | none => []) :: ext, ?_⟩
      rw [hh]
      simp
    · intro p hp
      rcases hw p hp with hmem | ⟨hge, hlt⟩
      · simp only [List.mem_append, List.mem_singleton] at hmem
        rcases hmem with hmem | hmem
        · exact Or.inl hmem
        · subst hmem
          refine Or.inr ⟨le_refl _, ?_⟩
          rw [hh]
          simp only [List.length_append, List.length_cons, List.length_nil]
          omega
      · refine Or.inr ⟨?_, hlt⟩
        simp only [List.length_append, List.length_cons, List.length_nil] at hge
        omega

theorem refSave_inv (imgs : List String) (s : RefState)
    (hwf : ∀ p ∈ s.working, p.2 < s.heap.length) :
    SaveInv s.heap.length (refSave imgs s)
    ∧ (refSave imgs s).storeAnn = s.working := by
  obtain ⟨hs, ⟨ext, hh⟩, hw⟩ :=
    refReloadGo_spec imgs { refSaveShallow s with working := [], undoStack := [] }
  have hstore : (refSave imgs s).storeAnn = s.working := hs
  refine ⟨⟨?_, ?_, ?_⟩, hstore⟩
  · intro p hp
    rw [hstore] at hp
    exact hwf p hp
  · intro p hp
    rcases hw p hp with hmem | ⟨hge, hlt⟩
    · simp at hmem
    · exact ⟨hge, hlt⟩
  · rw [show (refSave imgs s).heap = s.heap ++ ext from hh]
    simp

/-- Claim C2: after `save()` — the shallow record copy followed by the
reload that gives the working state fresh list objects — no later
in-memory mutation of the working state (adding a box, or undo popping a
box) alters the per-image box lists recorded in the saved store for the
group.  `hwf` states that every working-list id is a live heap object. -/
theorem c2_save_snapshot (s : RefState) (imgs : List String) (ops : List RefOp)
    (hwf : ∀ p ∈ s.working, p.2 < s.heap.length) :
    derefStore (applyRefOps ops (refSave imgs s)) = derefStore (refSave imgs s) := by
  obtain ⟨hinv, hstore⟩ := refSave_inv imgs s hwf
  have hpres := refOps_preserve s.heap.length ops (refSave imgs s) hinv
  exact derefStore_congr s.heap.length (refSave imgs s) _ hinv.1 hpres.2.1 hpres.2.2

/-- Closed instance of C2: on `refSample`, saving and then adding plus
undoing a box leaves the saved record's dereferenced box lists unchanged. -/
theorem c2_save_snapshot_witness :
    derefStore (applyRefOps [RefOp.add "i" ⟨1, 1, 30, 30⟩, RefOp.undo]
        (refSave ["i"] refSample))
      = derefStore (refSave ["i"] refSample) :=
  c2_save_snapshot refSample ["i"] [RefOp.add "i" ⟨1, 1, 30, 30⟩, RefOp.undo]
    (by decide)
